import Mathlib

/-!
# Verification of the kiss3 codec core (KISS framing + AX.25 frame model)

Shallow embedding of `kiss3/util.py`, `kiss3/kiss.py` and `kiss3/ax25.py`.
Byte strings are modelled as `List Nat` (each element a byte value).
Fallible Python code (raising `ValueError`/`IndexError`/`TypeError`) is
modelled with `Except String`.

Constants from `kiss3/constants.py` (the file is not part of the sources
available here) are modelled from the specification, section 6:
`FEND=0x7E, FESC=0x7D, TFEND=0x5E, TFESC=0x5D`, command byte `0x00` for
data frames, control field default `0x03` (UI), PID default `0xF0`
(no layer-3 protocol).
-/

deriving instance DecidableEq for Except

/-- Python whitespace byte set used by `bytes.strip()` / `rstrip()` /
`lstrip()` with no argument: `b" \t\n\r\x0b\x0c"`. -/
def wsBytes : List Nat := [32, 9, 10, 13, 11, 12]

/-- `bytes.lstrip()` with no argument: drop leading whitespace. -/
def pyLstripWS (l : List Nat) : List Nat := l.dropWhile (fun c => c ∈ wsBytes)

/-- `bytes.rstrip()` with no argument: drop trailing whitespace. -/
def pyRstripWS (l : List Nat) : List Nat := (l.reverse.dropWhile (fun c => c ∈ wsBytes)).reverse

/-- `bytes.strip()` with no argument: drop whitespace from both ends. -/
def pyStripWS (l : List Nat) : List Nat := pyRstripWS (pyLstripWS l)

/-- Python slice `b[i:j]` for `0 ≤ i ≤ j` (clamping past the end,
empty when `j ≤ i`), as used throughout `ax25.py`. -/
def pySlice (b : List Nat) (i j : Nat) : List Nat := ((b.drop i).take (j - i))

/-- Python `bytes.ljust(n)`: pad on the right with spaces (0x20) to length `n`. -/
def pyLjust (l : List Nat) (n : Nat) : List Nat := l ++ List.replicate (n - l.length) 32

/-- Index of the first occurrence of `c` in `l` (`bytes.find` from position 0). -/
def findIdxFrom (c : Nat) : List Nat → Option Nat
  | [] => none
  | x :: xs => if x = c then some 0 else (findIdxFrom c xs).map (· + 1)

/-- Python `b.find(c, s)`: first index `≥ s` holding byte `c`, `none` when absent
(Python returns -1). -/
def pyFind (c : Nat) (b : List Nat) (s : Nat) : Option Nat :=
  (findIdxFrom c (b.drop s)).map (· + s)

/-- Python `b.rfind(c)`: last index holding byte `c`, `none` when absent. -/
def pyRFind (c : Nat) : List Nat → Option Nat
  | [] => none
  | x :: xs =>
    match pyRFind c xs with
    | some j => some (j + 1)
    | none => if x = c then some 0 else none

/-- Python `b.split(sep)` for a single separator byte. -/
def pySplit (sep : Nat) : List Nat → List (List Nat)
  | [] => [[]]
  | x :: xs =>
    match pySplit sep xs with
    | [] => [[]]
    | y :: ys => if x = sep then [] :: y :: ys else (x :: y) :: ys

/-! ## KISS constants (modelled from the spec, `constants.py` absent) -/

/-- Modelled from the spec: `constants.py` is missing from the sources;
spec section 6 gives `FEND = 0x7E`. -/
def FEND : Nat := 0x7E

/-- Modelled from the spec: `FESC = 0x7D`. -/
def FESC : Nat := 0x7D

/-- Modelled from the spec: `TFEND = 0x5E`. -/
def TFEND : Nat := 0x5E

/-- Modelled from the spec: `TFESC = 0x5D`. -/
def TFESC : Nat := 0x5D

/-! ## `kiss3/util.py`: escaping -/

/-- Python `bytes.replace(a, repl)` for a one-byte pattern `a`. -/
def replace1 (a : Nat) (repl : List Nat) (l : List Nat) : List Nat :=
  (l.map (fun c => if c = a then repl else [c])).flatten

/-- `util.escape_special_codes`: first replace FESC by FESC TFESC,
then FEND by FESC TFEND. -/
def escape_special_codes (raw : List Nat) : List Nat :=
  replace1 FEND [FESC, TFEND] (replace1 FESC [FESC, TFESC] raw)

/-- `util.recover_special_codes`: scan left to right; FESC TFESC recovers
FESC, FESC TFEND recovers FEND, a FESC followed by any other byte (or at the
very end) is passed through unchanged. -/
def recover_special_codes : List Nat → List Nat
  | [] => []
  | [x] => [x]
  | x :: y :: rest =>
    if x = FESC then
      if y = TFESC then FESC :: recover_special_codes rest
      else if y = TFEND then FEND :: recover_special_codes rest
      else x :: recover_special_codes (y :: rest)
    else x :: recover_special_codes (y :: rest)

/-- One-byte escaping step: what `escape_special_codes` does to a single byte. -/
def escByte (c : Nat) : List Nat :=
  if c = FESC then [FESC, TFESC] else if c = FEND then [FESC, TFEND] else [c]

theorem replace1_cons (a : Nat) (repl : List Nat) (c : Nat) (l : List Nat) :
    replace1 a repl (c :: l) = (if c = a then repl else [c]) ++ replace1 a repl l := by
  simp [replace1]

theorem replace1_append (a : Nat) (repl : List Nat) (u v : List Nat) :
    replace1 a repl (u ++ v) = replace1 a repl u ++ replace1 a repl v := by
  simp [replace1]

theorem escape_cons (c : Nat) (l : List Nat) :
    escape_special_codes (c :: l) = escByte c ++ escape_special_codes l := by
  by_cases hesc : c = FESC
  · subst hesc
    simp [escape_special_codes, replace1_cons, replace1_append, escByte, FESC, FEND, TFESC]
  · by_cases hend : c = FEND
    · subst hend
      simp [escape_special_codes, replace1_cons, replace1_append, escByte, FESC, FEND]
    · simp [escape_special_codes, replace1_cons, replace1_append, escByte, hesc, hend]

theorem recover_cons_of_ne (c : Nat) (l : List Nat) (h : c ≠ FESC) :
    recover_special_codes (c :: l) = c :: recover_special_codes l := by
  cases l with
  | nil => rfl
  | cons y rest => simp [recover_special_codes, h]

theorem recover_escape (b : List Nat) :
    recover_special_codes (escape_special_codes b) = b := by
  induction b with
  | nil => rfl
  | cons c rest ih =>
    rw [escape_cons]
    by_cases hesc : c = FESC
    · subst hesc
      simpa [escByte, recover_special_codes, FESC, TFESC] using ih
    · by_cases hend : c = FEND
      · subst hend
        simpa [escByte, recover_special_codes, FESC, FEND, TFESC, TFEND] using ih
      · rw [show escByte c = [c] by simp [escByte, hesc, hend], List.singleton_append,
          recover_cons_of_ne c _ hesc, ih]

/-- C4: for every byte string `b` (including ones already containing
FESC/FEND/TFESC/TFEND bytes), `recover_special_codes (escape_special_codes b) = b`. -/
theorem c4_escape_roundtrip :
    ∀ b : List Nat, recover_special_codes (escape_special_codes b) = b :=
  recover_escape

/-! ## `kiss3/util.py`: frame post-processing, and `kiss3/kiss.py`: deframing -/

/-- `constants.DATA_FRAME` opcode byte. Modelled from the spec: `0x00 = data frame`. -/
def DATA_FRAME : Nat := 0x00

/-- `util.strip_nmea`: drop a leading T3-Micro/NMEA telemetry header byte (240)
and trailing whitespace when the header byte is present. -/
def strip_nmea (frame : List Nat) : List Nat :=
  match frame with
  | [] => []
  | c :: rest => if c = 240 then pyRstripWS rest else c :: rest

/-- `util.strip_df_start`: `frame.lstrip(DATA_FRAME).strip()` — drop ALL leading
DATA_FRAME (0x00) bytes, then whitespace from both ends. -/
def strip_df_start (frame : List Nat) : List Nat :=
  pyStripWS (frame.dropWhile (fun c => c = DATA_FRAME))

/-- `kiss.handle_fend`: un-escape a deframed KISS segment after removing a
telemetry header, optionally stripping the DATA_FRAME opcode. -/
def handle_fend (stripDfStart : Bool) (buffer : List Nat) : List Nat :=
  let frame := recover_special_codes (strip_nmea buffer)
  if stripDfStart then strip_df_start frame else frame

/-- The frames `KISSDecode.update` emits for a completed span: split on FEND,
drop empty segments (`filter(None, ...)`), decode each via `handle_fend`
(`KISSDecode.decode_frames`). -/
def kissSegments (stripDfStart : Bool) (combined : List Nat) : List (List Nat) :=
  ((pySplit FEND combined).filter (fun s => !s.isEmpty)).map (handle_fend stripDfStart)

/-- `KISSDecode.update`: state is the pending partial-frame buffer
(`_last_pframe`); returns (new pending buffer, emitted frames). The
`callback` invocation in the source has no effect on the emitted values. -/
def kissUpdate (stripDfStart : Bool) (pending new : List Nat) :
    List Nat × List (List Nat) :=
  match pyRFind FEND new with
  | none => (pending ++ new, [])
  | some i => (new.drop (i + 1), kissSegments stripDfStart (pending ++ new.take (i + 1)))

/-- Feed a list of chunks through `KISSDecode.update` one at a time,
collecting all emitted frames in order. -/
def runUpdates (stripDfStart : Bool) (st : List Nat) :
    List (List Nat) → List Nat × List (List Nat)
  | [] => (st, [])
  | c :: cs =>
    let r1 := kissUpdate stripDfStart st c
    let r2 := runUpdates stripDfStart r1.1 cs
    (r2.1, r1.2 ++ r2.2)

theorem pyRFind_some_decomp (c : Nat) (l : List Nat) (i : Nat)
    (h : pyRFind c l = some i) :
    ∃ u v, l = u ++ c :: v ∧ u.length = i ∧ pyRFind c v = none := by
  induction l generalizing i with
  | nil => simp [pyRFind] at h
  | cons x xs ih =>
    rw [pyRFind] at h
    cases hxs : pyRFind c xs with
    | some j =>
      rw [hxs] at h
      injection h with h
      obtain ⟨u, v, hl, hu, hv⟩ := ih j hxs
      exact ⟨x :: u, v, by simp [hl], by simp [hu, ← h], hv⟩
    | none =>
      rw [hxs] at h
      by_cases hx : x = c
      · simp [hx] at h
        exact ⟨[], xs, by simp [hx], by simp [← h], hxs⟩
      · simp [hx] at h

theorem pyRFind_append_some (c : Nat) (x y : List Nat) (j : Nat)
    (h : pyRFind c y = some j) :
    pyRFind c (x ++ y) = some (x.length + j) := by
  induction x with
  | nil => simpa using h
  | cons a x' ih =>
    rw [List.cons_append, pyRFind, ih]
    simp only [List.length_cons, Option.some.injEq]
    omega

theorem pyRFind_append_none (c : Nat) (x y : List Nat)
    (h : pyRFind c y = none) :
    pyRFind c (x ++ y) = pyRFind c x := by
  induction x with
  | nil => simpa using h
  | cons a x' ih =>
    rw [List.cons_append, pyRFind, ih, pyRFind]

theorem take_length_add {α : Type} (x : List α) (y : List α) (n : Nat) :
    (x ++ y).take (x.length + n) = x ++ y.take n := by
  induction x with
  | nil => simp
  | cons a x' ih =>
    simp only [List.cons_append, List.length_cons]
    rw [show x'.length + 1 + n = (x'.length + n) + 1 by omega, List.take_succ_cons, ih]

theorem drop_length_add {α : Type} (x : List α) (y : List α) (n : Nat) :
    (x ++ y).drop (x.length + n) = y.drop n := by
  induction x with
  | nil => simp
  | cons a x' ih =>
    simp only [List.cons_append, List.length_cons]
    rw [show x'.length + 1 + n = (x'.length + n) + 1 by omega, List.drop_succ_cons, ih]

theorem take_append_cons {α : Type} (u : List α) (z : α) (v : List α) :
    (u ++ z :: v).take (u.length + 1) = u ++ [z] := by
  have h := take_length_add u (z :: v) 1
  simpa using h

theorem drop_append_cons {α : Type} (u : List α) (z : α) (v : List α) :
    (u ++ z :: v).drop (u.length + 1) = v := by
  have h := drop_length_add u (z :: v) 1
  simpa using h

theorem pySplit_ne_nil (sep : Nat) (l : List Nat) : pySplit sep l ≠ [] := by
  cases l with
  | nil => simp [pySplit]
  | cons x xs =>
    rw [pySplit]
    cases h : pySplit sep xs with
    | nil => simp
    | cons y ys =>
      by_cases hx : x = sep <;> simp [hx]

theorem pySplit_append_sep (sep : Nat) (u v : List Nat) :
    pySplit sep (u ++ sep :: v) = pySplit sep u ++ pySplit sep v := by
  induction u with
  | nil =>
    cases h : pySplit sep v with
    | nil => exact absurd h (pySplit_ne_nil sep v)
    | cons y ys =>
      have hL : pySplit sep (sep :: v) = [] :: y :: ys := by
        simp [pySplit, h]
      rw [List.nil_append, hL]
      simp [pySplit]
  | cons a u' ih =>
    cases h : pySplit sep u' with
    | nil => exact absurd h (pySplit_ne_nil sep u')
    | cons y ys =>
      have hR : pySplit sep (a :: u') = if a = sep then [] :: y :: ys
          else (a :: y) :: ys := by
        rw [pySplit, h]
      rw [List.cons_append, pySplit, ih, h, List.cons_append, hR]
      by_cases ha : a = sep <;> simp [ha]

theorem kissSegments_split (strip : Bool) (A B : List Nat) :
    kissSegments strip (A ++ FEND :: B) = kissSegments strip A ++ kissSegments strip B := by
  simp [kissSegments, pySplit_append_sep]

theorem kissSegments_concat (strip : Bool) (A : List Nat) :
    kissSegments strip (A ++ [FEND]) = kissSegments strip A := by
  have h : A ++ [FEND] = A ++ FEND :: [] := rfl
  rw [h, kissSegments_split]
  simp [kissSegments, pySplit]

theorem kissUpdate_append (strip : Bool) (st x y : List Nat) :
    kissUpdate strip st (x ++ y) =
      ((kissUpdate strip (kissUpdate strip st x).1 y).1,
       (kissUpdate strip st x).2 ++ (kissUpdate strip (kissUpdate strip st x).1 y).2) := by
  cases hy : pyRFind FEND y with
  | none =>
    cases hx : pyRFind FEND x with
    | none =>
      simp [kissUpdate, hy, hx, pyRFind_append_none FEND x y hy, List.append_assoc]
    | some i =>
      obtain ⟨u, v, hxe, hu, hvn⟩ := pyRFind_some_decomp FEND x i hx
      subst hxe
      subst hu
      have hvy : pyRFind FEND (v ++ y) = none := by
        rw [pyRFind_append_none FEND v y hy]; exact hvn
      have hfy : pyRFind FEND (FEND :: (v ++ y)) = some 0 := by
        rw [pyRFind, hvy]; simp
      have hall : pyRFind FEND ((u ++ FEND :: v) ++ y) = some (u.length + 0) := by
        rw [show (u ++ FEND :: v) ++ y = u ++ (FEND :: (v ++ y)) by simp]
        exact pyRFind_append_some FEND u _ 0 hfy
      simp only [kissUpdate, hall, hy, hx]
      rw [show (u ++ FEND :: v) ++ y = u ++ FEND :: (v ++ y) by simp]
      rw [show u.length + 0 + 1 = u.length + 1 by omega]
      rw [take_append_cons, drop_append_cons, take_append_cons u FEND v,
        drop_append_cons u FEND v]
      simp
  | some j =>
    obtain ⟨u2, v2, hye, hu2, _⟩ := pyRFind_some_decomp FEND y j hy
    have hall : pyRFind FEND (x ++ y) = some (x.length + j) :=
      pyRFind_append_some FEND x y j hy
    cases hx : pyRFind FEND x with
    | none =>
      simp only [kissUpdate, hall, hy, hx]
      subst hye
      subst hu2
      rw [show x.length + u2.length + 1 = x.length + (u2.length + 1) by omega,
        take_length_add, drop_length_add, take_append_cons, drop_append_cons]
      simp [List.append_assoc]
    | some i =>
      obtain ⟨u, v, hxe, hu, _⟩ := pyRFind_some_decomp FEND x i hx
      simp only [kissUpdate, hall, hy, hx]
      subst hye
      subst hu2
      subst hxe
      subst hu
      rw [show (u ++ FEND :: v).length + u2.length + 1 =
          (u ++ FEND :: v).length + (u2.length + 1) by omega,
        take_length_add, drop_length_add, take_append_cons, drop_append_cons,
        take_append_cons u FEND v, drop_append_cons u FEND v]
      rw [show st ++ ((u ++ FEND :: v) ++ (u2 ++ [FEND])) =
          (st ++ u) ++ FEND :: (v ++ (u2 ++ [FEND])) by simp]
      rw [kissSegments_split]
      rw [show st ++ (u ++ [FEND]) = (st ++ u) ++ [FEND] by simp,
        kissSegments_concat]

theorem runUpdates_eq_single (strip : Bool) :
    ∀ (chunks : List (List Nat)) (st : List Nat),
      runUpdates strip st chunks = kissUpdate strip st chunks.flatten := by
  intro chunks
  induction chunks with
  | nil => intro st; simp [runUpdates, kissUpdate, pyRFind]
  | cons c cs ih =>
    intro st
    rw [show (c :: cs).flatten = c ++ cs.flatten by simp, kissUpdate_append,
      runUpdates, ← ih (kissUpdate strip st c).1]

theorem mem_takeWhile_pred {α : Type} (p : α → Bool) (l : List α) (a : α)
    (h : a ∈ l.takeWhile p) : p a = true := by
  induction l with
  | nil => simp [List.takeWhile] at h
  | cons x xs ih =>
    rw [List.takeWhile] at h
    cases hp : p x with
    | false => rw [hp] at h; simp at h
    | true =>
      rw [hp] at h
      rcases List.mem_cons.mp h with heq | hmem
      · rw [heq]; exact hp
      · exact ih hmem

/-- C8 (amended): with `strip_df_start=True` and no telemetry header byte, the
emitted payload is obtained from the un-escaped segment by removing only
DATA_FRAME (0x00) bytes and ASCII-whitespace bytes at the two ends; the
emitted payload itself is an unchanged contiguous run of the un-escaped
segment. -/
theorem c8_strip_only_zeros_and_ws (seg : List Nat) (hn : seg.head? ≠ some 240) :
    ∃ p s, recover_special_codes seg = p ++ handle_fend true seg ++ s ∧
      (∀ c ∈ p, c = 0 ∨ c ∈ wsBytes) ∧ (∀ c ∈ s, c ∈ wsBytes) := by
  have hsn : strip_nmea seg = seg := by
    cases seg with
    | nil => rfl
    | cons c rest =>
      have : c ≠ 240 := by
        intro hc
        exact hn (by simp [hc])
      simp [strip_nmea, this]
  have hhf : handle_fend true seg = strip_df_start (recover_special_codes seg) := by
    simp [handle_fend, hsn]
  set R := recover_special_codes seg with hR
  set L1 := R.dropWhile (fun c => c = DATA_FRAME) with hL1
  set L2 := L1.dropWhile (fun c => c ∈ wsBytes) with hL2
  have hsplit0 : R = R.takeWhile (fun c => c = DATA_FRAME) ++ L1 :=
    (List.takeWhile_append_dropWhile _ _).symm
  have hsplit1 : L1 = L1.takeWhile (fun c => c ∈ wsBytes) ++ L2 :=
    (List.takeWhile_append_dropWhile _ _).symm
  have hsplit2 : L2 = (L2.reverse.dropWhile (fun c => c ∈ wsBytes)).reverse ++
      (L2.reverse.takeWhile (fun c => c ∈ wsBytes)).reverse := by
    have h := List.takeWhile_append_dropWhile
      (p := fun c => decide (c ∈ wsBytes)) (l := L2.reverse)
    have h2 := congrArg List.reverse h
    rw [List.reverse_append, List.reverse_reverse] at h2
    exact h2.symm
  refine ⟨R.takeWhile (fun c => c = DATA_FRAME) ++ L1.takeWhile (fun c => c ∈ wsBytes),
    (L2.reverse.takeWhile (fun c => c ∈ wsBytes)).reverse, ?_, ?_, ?_⟩
  · rw [hhf]
    have hout : strip_df_start R = (L2.reverse.dropWhile (fun c => c ∈ wsBytes)).reverse := by
      simp [strip_df_start, pyStripWS, pyLstripWS, pyRstripWS, ← hL1, ← hL2]
    rw [hout]
    calc R = R.takeWhile (fun c => c = DATA_FRAME) ++ L1 := hsplit0
    _ = R.takeWhile (fun c => c = DATA_FRAME) ++
        (L1.takeWhile (fun c => c ∈ wsBytes) ++ L2) := by rw [← hsplit1]
    _ = _ := by rw [hsplit2 ]; simp
  · intro c hc
    rcases List.mem_append.mp hc with hc1 | hc2
    · left
      have := mem_takeWhile_pred _ _ _ hc1
      simpa [DATA_FRAME] using this
    · right
      have := mem_takeWhile_pred _ _ _ hc2
      simpa using this
  · intro c hc
    have hc' : c ∈ L2.reverse.takeWhile (fun c => c ∈ wsBytes) := by
      simpa using hc
    have := mem_takeWhile_pred _ _ _ hc'
    simpa using this

/-- C8 (witness for the amended theorem): instantiated at the concrete segment
`[0x00, 0x74, 0x0A]`. -/
theorem c8_strip_only_zeros_and_ws_witness :
    (([0, 116, 10] : List Nat).head? ≠ some 240) ∧
    (∃ p s, recover_special_codes [0, 116, 10] =
        p ++ handle_fend true [0, 116, 10] ++ s ∧
      (∀ c ∈ p, c = 0 ∨ c ∈ wsBytes) ∧ (∀ c ∈ s, c ∈ wsBytes)) :=
  ⟨by decide, c8_strip_only_zeros_and_ws [0, 116, 10] (by decide)⟩

/-- C8 (counterexample): on the deframed segment `[0x00, 0x74, 0x0A]`
(unescaping changes nothing, no telemetry header), the claim predicts that at
most the single leading DATA_FRAME byte is removed, i.e. an emitted payload of
`[0x74, 0x0A]`; the code also strips the trailing whitespace byte `0x0A` and
emits `[0x74]`. -/
theorem c8_counterexample :
    recover_special_codes [0, 116, 10] = [0, 116, 10] ∧
    handle_fend true [0, 116, 10] = [116] ∧
    handle_fend true [0, 116, 10] ≠ List.drop 1 (recover_special_codes [0, 116, 10]) := by
  refine ⟨by decide, by decide, by decide⟩

/-- C5: KISS deframing is invariant under chunk boundaries: feeding any list of
pieces one at a time through `KISSDecode.update` produces the same final pending
buffer and the same concatenated frame sequence as feeding their concatenation
in a single call; and `update(b"")` emits no frames and leaves the pending
buffer unchanged. -/
theorem c5_chunk_invariance :
    (∀ (strip : Bool) (st : List Nat), kissUpdate strip st [] = (st, [])) ∧
    (∀ (strip : Bool) (st : List Nat) (chunks : List (List Nat)),
      runUpdates strip st chunks = kissUpdate strip st chunks.flatten) := by
  constructor
  · intro strip st; simp [kissUpdate, pyRFind]
  · intro strip st chunks; exact runUpdates_eq_single strip chunks st

/-! ## `kiss3/ax25.py`: the AX.25 data model and codec -/

/-- `AX25_FLAG` from `ax25.py`: the HDLC flag byte `0x7E`. -/
def AX25_FLAG : Nat := 0x7E

/-- Modelled from the spec (`constants.py` absent): the default control field
is unnumbered-information, whose mask is `0x03` (confirmed by
`tests/test_ax25.py`, which builds UI frames with `Control(b"\x03")`). -/
def UI_CONTROL_FIELD : Nat := 0x03

/-- Modelled from the spec (`constants.py` absent): the default PID byte,
"no layer-3 protocol", `0xF0` (confirmed by `tests/test_ax25.py`, which
expects `pid=b"\xf0"` on UI frames). -/
def NO_PROTOCOL_ID : Nat := 0xF0

/-- `bytes.upper()` on a single byte: map a-z to A-Z. -/
def upperByte (c : Nat) : Nat := if 97 ≤ c ∧ c ≤ 122 then c - 32 else c

/-- One byte of the callsign character class `[A-Z0-9]`. -/
def isUpperAlnum (c : Nat) : Bool := (48 ≤ c && c ≤ 57) || (65 ≤ c && c ≤ 90)

/-- `Address`: an AX.25-encoded callsign (`attrs` frozen class; equality is
structural on all four fields). -/
structure Address where
  callsign : List Nat
  ssid : Nat
  digi : Bool
  a7_hldc : Bool
  deriving DecidableEq

/-- The `Address` attrs constructor: the converter upper-cases the callsign,
the `valid_callsign` validator requires a nonempty `[A-Z0-9]+` byte string
(note: no length bound here; the 6-byte bound is checked only on encode). -/
def mkAddress (callsign : List Nat) (ssid : Nat) (digi a7 : Bool) :
    Except String Address :=
  let cs := callsign.map upperByte
  if !cs.isEmpty && cs.all isUpperAlnum then Except.ok ⟨cs, ssid, digi, a7⟩
  else Except.error "callsign does not match VALID_CALLSIGN_REX"

/-- `Address.from_bytes`: requires exactly 7 bytes; callsign = first six bytes
each right-shifted one bit then right-stripped of whitespace; ssid = bits 4-1
of byte 7; `a7_hldc` = bit 0 of byte 7; `digi` = bit 7 of byte 7 but only when
`a7_hldc` is set. -/
def Address.from_bytes (a : List Nat) : Except String Address :=
  if a.length ≠ 7 then Except.error "ax25 address must be 7 bytes"
  else
    let callsign := pyRstripWS ((a.take 6).map (fun b => b / 2))
    let b6 := (a.drop 6).headD 0
    mkAddress callsign ((b6 / 2) % 16)
      (if b6 % 2 = 1 then decide (b6 / 128 % 2 = 1) else false)
      (decide (b6 % 2 = 1))

/-- Byte 7 of an encoded address, as built by `Address.__bytes__` via bitarray:
start from `ssid << 1`, overwrite bit 7 with `digi and a7_hldc`, set bits 6-5
(reserved), overwrite bit 0 with `a7_hldc`. -/
def addrByte7 (ad : Address) : Nat :=
  (if ad.digi && ad.a7_hldc then 128 else 0) + 96 + (ad.ssid % 16) * 2 +
    (if ad.a7_hldc then 1 else 0)

/-- The encoded form produced by the success branch of `Address.__bytes__`:
space-padded callsign, each byte left-shifted one bit, then `addrByte7`. -/
def addrEnc (ad : Address) : List Nat :=
  (pyLjust ad.callsign 6).map (fun b => b * 2) ++ [addrByte7 ad]

/-- `Address.__bytes__`: fails when the callsign exceeds 6 bytes; `bytes(...)`
construction fails when a shifted callsign byte or `ssid << 1` exceeds 255. -/
def Address.to_bytes (ad : Address) : Except String (List Nat) :=
  if 6 < ad.callsign.length then
    Except.error "Cannot encode callsign greater than 6 bytes"
  else if (pyLjust ad.callsign 6).any (fun b => 128 ≤ b) then
    Except.error "bytes must be in range 0..255 (callsign byte shifted left)"
  else if 255 < ad.ssid * 2 then
    Except.error "bytes must be in range 0..255 (ssid shifted left)"
  else Except.ok (addrEnc ad)

/-- `FrameType`: the closed enumeration of AX.25 control-field types. -/
inductive FrameType where
  | U_TEST | U_XID | U_FRMR | U_SABME | U_UA | U_DISC | U_SABM | U_DM
  | S_SREJ | S_REJ | S_RNR | U_UI | S_RR | I
  deriving DecidableEq

/-- The bitmask value of each `FrameType` member. -/
def FrameType.mask : FrameType → Nat
  | .U_TEST => 0xE3
  | .U_XID => 0xAF
  | .U_FRMR => 0x87
  | .U_SABME => 0x6F
  | .U_UA => 0x63
  | .U_DISC => 0x43
  | .U_SABM => 0x2F
  | .U_DM => 0xF
  | .S_SREJ => 0xD
  | .S_REJ => 0x9
  | .S_RNR => 0x5
  | .U_UI => 0x3
  | .S_RR => 0x1
  | .I => 0x0

/-- `FrameType.__members__.values()` in declaration order, the order the
classifier scans. -/
def frameTypeMembers : List FrameType :=
  [.U_TEST, .U_XID, .U_FRMR, .U_SABME, .U_UA, .U_DISC, .U_SABM, .U_DM,
   .S_SREJ, .S_REJ, .S_RNR, .U_UI, .S_RR, .I]

/-- `FrameType.from_control_byte`: first member whose mask is fully set in the
control byte; `none` models the `ValueError` raised when no member matches. -/
def FrameType.from_control_byte (control : Nat) : Option FrameType :=
  frameTypeMembers.find? (fun t => control &&& t.mask == t.mask)

/-- `Control`: wraps one byte. The derived `bv` and `ftype` attrs fields are
deterministic functions of `v`, so structural equality is equality of `v`. -/
structure Control where
  v : Nat
  deriving DecidableEq

/-- The `Control` attrs constructor: value must be exactly 1 byte, and the
`ftype` default raises if no frame type matches (unreachable, since
`FrameType.I` has mask 0). -/
def mkControl (b : List Nat) : Except String Control :=
  match b with
  | [v] =>
    match FrameType.from_control_byte v with
    | some _ => Except.ok ⟨v⟩
    | none => Except.error "Cannot interpret control byte as a valid AX.25 frame type."
  | _ => Except.error "v must be exactly 1 byte"

/-- Whether a PID byte is present for this control byte:
`control.ftype in (FrameType.I, FrameType.U_UI)`. -/
def pidPresent (v : Nat) : Bool :=
  match FrameType.from_control_byte v with
  | some FrameType.I => true
  | some FrameType.U_UI => true
  | _ => false

/-- `Frame`: an AX.25 frame (`attrs` frozen class, structural equality).
`fcs` is `none` (no FCS) or two explicit bytes; the `fcs=True`
compute-on-encode sentinel needs `fcs.py`, which is absent from the sources,
and is used by no claim, so it is not modelled. -/
structure Frame where
  destination : Address
  source : Address
  path : List Address
  control : Control
  pid : Option (List Nat)
  info : List Nat
  fcs : Option (List Nat)
  deriving DecidableEq

/-- The `pid` attrs validator: absent or exactly 1 byte. -/
def pidOk : Option (List Nat) → Bool
  | none => true
  | some pb => pb.length == 1

/-- The `fcs` attrs validator: absent or exactly 2 bytes. -/
def fcsOk : Option (List Nat) → Bool
  | none => true
  | some fb => fb.length == 2

/-- The `Frame` attrs constructor with its field validators. -/
def mkFrame (d s : Address) (p : List Address) (c : Control)
    (pid : Option (List Nat)) (info : List Nat) (fcs : Option (List Nat)) :
    Except String Frame :=
  if pidOk pid && fcsOk fcs then Except.ok ⟨d, s, p, c, pid, info, fcs⟩
  else Except.error "pid must be 1 byte and fcs must be 2 bytes when present"

/-- `Frame.__bytes__`: destination, source, path addresses (each encoded with
the flags it carries — nothing is forced here), control byte, PID byte only
for I/UI frames (`b"".join` raises `TypeError` when `pid is None`), info.
With no FCS the bytes are returned as-is; with an explicit FCS the result is
wrapped in HDLC flags with the FCS before the trailing flag. -/
def Frame.to_bytes (f : Frame) : Except String (List Nat) := do
  let d ← f.destination.to_bytes
  let s ← f.source.to_bytes
  let ps ← f.path.mapM Address.to_bytes
  let pidPart ← if pidPresent f.control.v then
      match f.pid with
      | some pb => pure pb
      | none => Except.error "TypeError: sequence item expected bytes, NoneType found"
    else pure []
  let checkable := d ++ s ++ ps.flatten ++ [f.control.v] ++ pidPart ++ f.info
  match f.fcs with
  | none => pure checkable
  | some fb => pure ([AX25_FLAG] ++ checkable ++ fb ++ [AX25_FLAG])

/-- The flag-consuming loop at the head of each frame in `Frame.from_bytes`
(`while ax25_bytes[header_start] == AX25_FLAG: header_start += 1`); running
past the end of the buffer is an `IndexError`. Structural recursion on a fuel
argument; callers pass `b.length + 1`, which the loop can never exhaust since
every step increments the index and the loop stops (with an error) at
`b.length`. -/
def consumeFlags (b : List Nat) : Nat → Nat → Except String Nat
  | 0, _ => Except.error "fuel exhausted (unreachable)"
  | fuel + 1, h =>
    if hl : h < b.length then
      if b.get ⟨h, hl⟩ = AX25_FLAG then consumeFlags b fuel (h + 1) else Except.ok h
    else Except.error "IndexError: index out of range"

/-- The repeater-path loop of `Frame.from_bytes`: starting from the source
address, read 7-byte addresses until one with `a7_hldc` set has been read
(inclusive); returns the collected path and the final `path_start`. Fuel-based
structural recursion; callers pass `b.length + 1`, which cannot be exhausted
since every successful 7-byte read advances the position by 7 and a short
slice makes `Address.from_bytes` fail. -/
def parsePathAux (b : List Nat) : Nat → Nat → Address → List Address →
    Except String (List Address × Nat)
  | 0, _, _, _ => Except.error "fuel exhausted (unreachable)"
  | fuel + 1, s, last, acc =>
    if last.a7_hldc then Except.ok (acc.reverse, s)
    else
      match Address.from_bytes (pySlice b s (s + 7)) with
      | Except.error e => Except.error e
      | Except.ok a => parsePathAux b fuel (s + 7) a (a :: acc)

/-- The frame loop of `Frame.from_bytes` (`while 0 < packet_start + 1 <
len(ax25_bytes)`). `packet_start` is a natural number here: the `-1` Python
uses for "no end flag found" always terminates the loop, and is modelled by
returning directly in the `none` branch of the flag search. In the branch
with no end flag, the source formats a debug message containing
`bin(info[-1])` before constructing the frame, which raises `IndexError` when
the info slice is empty. Fuel-based structural recursion; callers pass
`b.length + 1`, which cannot be exhausted since each iteration moves
`packet_start` forward by at least 16 bytes. -/
def fromBytesAux (b : List Nat) : Nat → Nat → List Frame → Except String (List Frame)
  | 0, _, _ => Except.error "fuel exhausted (unreachable)"
  | fuel + 1, ps, acc =>
    if ps + 1 < b.length then
      match consumeFlags b (b.length + 1) ps with
      | Except.error e => Except.error e
      | Except.ok hs =>
      match Address.from_bytes (pySlice b hs (hs + 7)) with
      | Except.error e => Except.error e
      | Except.ok dest =>
      match Address.from_bytes (pySlice b (hs + 7) (hs + 14)) with
      | Except.error e => Except.error e
      | Except.ok src =>
      match parsePathAux b (b.length + 1) (hs + 14) src [] with
      | Except.error e => Except.error e
      | Except.ok (path, pathStart) =>
      match mkControl (pySlice b pathStart (pathStart + 1)) with
      | Except.error e => Except.error e
      | Except.ok control =>
        let infoStart := if pidPresent control.v then pathStart + 2 else pathStart + 1
        let pid := if pidPresent control.v then
            some (pySlice b (pathStart + 1) (pathStart + 2))
          else none
        match pyFind AX25_FLAG b infoStart with
        | none =>
          let info := b.drop infoStart
          if info.isEmpty then
            Except.error "IndexError: debug message formats the last byte of empty info"
          else
            match mkFrame dest src path control pid info none with
            | Except.error e => Except.error e
            | Except.ok f => Except.ok (acc ++ [f])
        | some e =>
          let fcsSlice := pySlice b (e - 2) e
          let fcs := if fcsSlice.isEmpty then none else some fcsSlice
          let info := pySlice b infoStart (e - 2)
          match mkFrame dest src path control pid info fcs with
          | Except.error er => Except.error er
          | Except.ok f => fromBytesAux b fuel e (acc ++ [f])
    else Except.ok acc

/-- `Frame.from_bytes`: decode zero or more consecutive AX.25 frames. -/
def Frame.from_bytes (b : List Nat) : Except String (List Frame) :=
  fromBytesAux b (b.length + 1) 0 []

/-- `Frame.ui` when the arguments are already `Address` values
(`Address.from_any` then evolves only the keyword-overridden `a7_hldc`
field): the source gets `a7_hldc = path is empty`, each path entry gets
`a7_hldc = (p == path[-1])` (structural equality against the last entry!),
the destination is passed through untouched. Control defaults to
`UI_CONTROL_FIELD`, pid to `NO_PROTOCOL_ID`, fcs absent. -/
def Frame.ui_addrs (destination source : Address) (path : List Address)
    (info : List Nat) : Frame :=
  { destination := destination
    source := { source with a7_hldc := path.isEmpty }
    path := path.map (fun p => { p with a7_hldc := path.getLast? == some p })
    control := ⟨UI_CONTROL_FIELD⟩
    pid := some [NO_PROTOCOL_ID]
    info := info
    fcs := none }

/-- Python `int()` on a string of decimal digits (sign and surrounding
whitespace forms are not needed by any claim and are not modelled). -/
def parsePyInt (s : List Char) : Except String Nat :=
  if !s.isEmpty && s.all Char.isDigit then
    Except.ok (s.foldl (fun acc c => acc * 10 + (c.toNat - 48)) 0)
  else Except.error "invalid literal for int() with base 10"

/-- Python `str.strip("*")`: remove all leading and trailing asterisks. -/
def stripStar (l : List Char) : List Char :=
  ((l.dropWhile (fun c => c = Char.ofNat 42)).reverse.dropWhile
    (fun c => c = Char.ofNat 42)).reverse

/-- Python `str.partition("-")` restricted to the two pieces the source uses:
the text before the first dash and the text after it (empty when no dash). -/
def partitionDash : List Char → List Char × List Char
  | [] => ([], [])
  | c :: rest =>
    if c = Char.ofNat 45 then ([], rest)
    else
      let r := partitionDash rest
      (c :: r.1, r.2)

/-- `Address.from_str`: `digi` iff the spec contains an asterisk; strip
asterisks; split callsign and SSID on the first dash; `a7_hldc = digi or
override`. Callsign bytes via UTF-8 (ASCII here: one byte per character). -/
def Address.from_str (s : String) (a7 : Bool) : Except String Address :=
  let chars := s.toList
  let digi := chars.contains (Char.ofNat 42)
  let address := stripStar chars
  let parts := partitionDash address
  let callsign := parts.1.map Char.toNat
  match (if parts.2.isEmpty then Except.ok 0 else parsePyInt parts.2) with
  | Except.error e => Except.error e
  | Except.ok ssid => mkAddress callsign ssid digi (digi || a7)

/-- `Frame.ui` when the arguments are strings (`Address.from_any` dispatches
to `Address.from_str`, with the same keyword overrides as `ui_addrs`;
`p == path[-1]` is string equality here). -/
def Frame.ui_strs (destination source : String) (path : List String)
    (info : List Nat) : Except String Frame := do
  let d ← Address.from_str destination false
  let s ← Address.from_str source path.isEmpty
  let p ← path.mapM (fun q => Address.from_str q (path.getLast? == some q))
  mkFrame d s p ⟨UI_CONTROL_FIELD⟩ (some [NO_PROTOCOL_ID]) info none

example : Address.from_bytes [0x9C, 0x60, 0x86, 0x82, 0x98, 0x98, 0x60] =
    Except.ok ⟨[78, 48, 67, 65, 76, 76], 0, false, false⟩ := by decide

example : Address.from_bytes [0x9C, 0x60, 0x86, 0x82, 0x98, 0x98, 0xE1] =
    Except.ok ⟨[78, 48, 67, 65, 76, 76], 0, true, true⟩ := by decide

example : Address.from_bytes [0x9C, 0x60, 0x86, 0x82, 0x98, 0x98, 0xE3] =
    Except.ok ⟨[78, 48, 67, 65, 76, 76], 1, true, true⟩ := by decide

example : Address.to_bytes ⟨[78, 48, 67, 65, 76, 76], 1, true, true⟩ =
    Except.ok [0x9C, 0x60, 0x86, 0x82, 0x98, 0x98, 0xE3] := by decide

/-! ## Validity predicates (the spec's data-model invariants, section 3) -/

/-- A valid `Address` per the spec's data model: callsign of 1-6 uppercase
alphanumeric ASCII bytes, ssid 0-15; `digi` may only be set together with
`a7_hldc`, because the encoding stores the C/H bit as `digi and a7_hldc`
and decoding reads `digi` back only when `a7_hldc` is set. -/
def validAddress (a : Address) : Prop :=
  a.callsign ≠ [] ∧ a.callsign.length ≤ 6 ∧
  (∀ c ∈ a.callsign, isUpperAlnum c = true) ∧
  a.ssid ≤ 15 ∧ (a.digi = true → a.a7_hldc = true)

instance (a : Address) : Decidable (validAddress a) := by
  unfold validAddress; infer_instance

/-- Exactly the last element of the list carries `a7_hldc`. -/
def lastHldcB : List Address → Bool
  | [] => true
  | [p] => p.a7_hldc
  | p :: rest => (!p.a7_hldc) && lastHldcB rest

/-- The `pid` field holds exactly one byte. -/
def pidIsOneByte : Option (List Nat) → Bool
  | some pb => pb.length == 1
  | none => false

/-- A valid `Frame` per the spec's data model: valid addresses throughout,
`a7_hldc` exactly on the terminal address of the address field (the last path
entry, or the source when the path is empty), and a 1-byte PID present iff the
frame type is I or UI. -/
def validFrame (f : Frame) : Prop :=
  validAddress f.destination ∧ validAddress f.source ∧
  (∀ p ∈ f.path, validAddress p) ∧
  (f.path = [] → f.source.a7_hldc = true) ∧
  (f.path ≠ [] → f.source.a7_hldc = false ∧ lastHldcB f.path = true) ∧
  (pidPresent f.control.v = true → pidIsOneByte f.pid = true) ∧
  (pidPresent f.control.v = false → f.pid = none)

instance (f : Frame) : Decidable (validFrame f) := by
  unfold validFrame; infer_instance

/-! ## C7: control-byte classification -/

/-- C7: byte `0x03` classifies as `U_UI`, byte `0x00` as `I`, and `Control`
construction fails with the malformed-control-byte error precisely on a byte
matching no defined `FrameType` mask. (`FrameType.I` has mask `0x00`, which
every byte satisfies, so in fact no byte in 0..255 is rejected.) -/
theorem c7_control_classification :
    FrameType.from_control_byte 0x03 = some FrameType.U_UI ∧
    FrameType.from_control_byte 0x00 = some FrameType.I ∧
    ∀ b : Fin 256,
      (mkControl [b.val] =
          Except.error "Cannot interpret control byte as a valid AX.25 frame type." ↔
        ∀ t ∈ frameTypeMembers, ¬(b.val &&& t.mask == t.mask) = true) := by
  refine ⟨by decide, by decide, ?_⟩
  intro b
  cases h : FrameType.from_control_byte b.val with
  | some t =>
    have hfind : frameTypeMembers.find? (fun t => b.val &&& t.mask == t.mask) = some t := h
    constructor
    · intro he
      simp [mkControl, h] at he
    · intro hall
      have hmem : t ∈ frameTypeMembers := List.mem_of_find?_eq_some hfind
      have hp := List.find?_some hfind
      exact absurd (by simpa using hp) (hall t hmem)
  | none =>
    have hfind : frameTypeMembers.find? (fun t => b.val &&& t.mask == t.mask) = none := h
    rw [List.find?_eq_none] at hfind
    constructor
    · intro _
      intro t ht
      simpa using hfind t ht
    · intro _
      simp [mkControl, h]

/-! ## C2: address round-trip -/

/-- C2 (counterexample): the address with callsign `A`, ssid 0, `digi=true`,
`a7_hldc=false` is a valid callsign/ssid combination, but its 7-byte encoding
decodes with `digi=false`: the C/H bit is written as `digi and a7_hldc` and
read back only when `a7_hldc` is set, so `digi` does not survive the round
trip without `a7_hldc`. -/
theorem c2_counterexample :
    Address.to_bytes ⟨[65], 0, true, false⟩ =
      Except.ok [130, 64, 64, 64, 64, 64, 96] ∧
    Address.from_bytes [130, 64, 64, 64, 64, 64, 96] =
      Except.ok ⟨[65], 0, false, false⟩ ∧
    (⟨[65], 0, false, false⟩ : Address) ≠ ⟨[65], 0, true, false⟩ := by
  refine ⟨by decide, by decide, by decide⟩

theorem upperByte_id (c : Nat) (h : isUpperAlnum c = true) : upperByte c = c := by
  rw [isUpperAlnum] at h
  rw [upperByte, if_neg]
  intro hc
  rcases Bool.or_eq_true_iff.mp h with h1 | h1 <;>
    rcases Bool.and_eq_true_iff.mp h1 with ⟨ha, hb⟩ <;>
    simp only [decide_eq_true_eq] at ha hb <;> omega

theorem alnum_not_ws (c : Nat) (h : isUpperAlnum c = true) : c ∉ wsBytes := by
  rw [isUpperAlnum] at h
  intro hmem
  have hc : 48 ≤ c := by
    rcases Bool.or_eq_true_iff.mp h with h1 | h1 <;>
      rcases Bool.and_eq_true_iff.mp h1 with ⟨ha, _⟩ <;>
      simp only [decide_eq_true_eq] at ha <;> omega
  rw [wsBytes] at hmem
  simp only [List.mem_cons, List.not_mem_nil, or_false] at hmem
  rcases hmem with h1 | h1 | h1 | h1 | h1 | h1 <;> omega

theorem dropWhile_replicate_append {α : Type} (p : α → Bool) (k : Nat) (x : α)
    (l : List α) (hx : p x = true) :
    (List.replicate k x ++ l).dropWhile p = l.dropWhile p := by
  induction k with
  | zero => simp
  | succ n ih => simpa [List.replicate_succ, List.dropWhile, hx] using ih

theorem pyRstripWS_pad (cs : List Nat) (k : Nat) (hne : cs ≠ [])
    (halnum : ∀ c ∈ cs, isUpperAlnum c = true) :
    pyRstripWS (cs ++ List.replicate k 32) = cs := by
  rw [pyRstripWS, List.reverse_append, List.reverse_replicate,
    dropWhile_replicate_append _ _ _ _ (by simp [wsBytes])]
  cases hrev : cs.reverse with
  | nil => exact absurd (by simpa using hrev) hne
  | cons c0 rest =>
    have hc0 : c0 ∈ cs := by
      have : c0 ∈ cs.reverse := by rw [hrev]; exact List.mem_cons_self c0 rest
      simpa using this
    rw [List.dropWhile_cons, if_neg (by simp [alnum_not_ws c0 (halnum c0 hc0)]),
      ← hrev, List.reverse_reverse]

theorem map_double_half (l : List Nat) : (l.map (fun b => b * 2)).map (fun b => b / 2) = l := by
  rw [List.map_map]
  have h : ((fun b => b / 2) ∘ fun b => b * 2) = fun b : Nat => b := by
    funext b
    show b * 2 / 2 = b
    omega
  rw [h]
  exact List.map_id' l

theorem take_len_of_eq {α : Type} (u v : List α) (n : Nat) (h : u.length = n) :
    (u ++ v).take n = u := by
  rw [← h]
  exact List.take_left u v

theorem drop_len_of_eq {α : Type} (u v : List α) (n : Nat) (h : u.length = n) :
    (u ++ v).drop n = v := by
  rw [← h]
  exact List.drop_left u v

theorem pyLjust_length (l : List Nat) (h : l.length ≤ 6) : (pyLjust l 6).length = 6 := by
  rw [pyLjust]; simp; omega

theorem addrEnc_length (a : Address) (h : a.callsign.length ≤ 6) :
    (addrEnc a).length = 7 := by
  rw [addrEnc]
  simp [pyLjust_length a.callsign h]

/-- Helper: encode/decode round trip for valid addresses with `digi → a7_hldc`. -/
theorem addr_roundtrip (a : Address) (h : validAddress a) :
    Address.to_bytes a = Except.ok (addrEnc a) ∧
    Address.from_bytes (addrEnc a) = Except.ok a := by
  obtain ⟨cs, ssid, dg, hl⟩ := a
  obtain ⟨hne, hlen, halnum, hssid, hdigi⟩ := h
  simp only at hne hlen halnum hssid hdigi
  have hchar_lt : ∀ c ∈ cs, c < 128 := by
    intro c hc
    have := halnum c hc
    rw [isUpperAlnum] at this
    rcases Bool.or_eq_true_iff.mp this with h1 | h1 <;>
      rcases Bool.and_eq_true_iff.mp h1 with ⟨_, hb⟩ <;>
      simp only [decide_eq_true_eq] at hb <;> omega
  constructor
  · rw [Address.to_bytes, if_neg (by simpa using by omega), if_neg, if_neg (by simpa using by omega)]
    rw [List.any_eq_true]
    rintro ⟨c, hc, h128⟩
    rw [pyLjust] at hc
    rcases List.mem_append.mp hc with hcc | hcr
    · have := hchar_lt c hcc
      simp only [decide_eq_true_eq] at h128
      omega
    · have := List.eq_of_mem_replicate hcr
      simp only [decide_eq_true_eq] at h128
      omega
  · have h7 : (addrEnc ⟨cs, ssid, dg, hl⟩).length = 7 := addrEnc_length _ hlen
    rw [Address.from_bytes, if_neg (by simp [h7])]
    have hmaplen : ((pyLjust cs 6).map (fun b => b * 2)).length = 6 := by
      simp [pyLjust_length cs hlen]
    have htake : (addrEnc ⟨cs, ssid, dg, hl⟩).take 6 =
        (pyLjust cs 6).map (fun b => b * 2) := by
      rw [addrEnc]
      exact take_len_of_eq _ _ 6 hmaplen
    have hdrop : (addrEnc ⟨cs, ssid, dg, hl⟩).drop 6 = [addrByte7 ⟨cs, ssid, dg, hl⟩] := by
      rw [addrEnc]
      exact drop_len_of_eq _ _ 6 hmaplen
    rw [htake, hdrop, map_double_half]
    rw [show pyLjust cs 6 = cs ++ List.replicate (6 - cs.length) 32 from rfl]
    rw [pyRstripWS_pad cs _ hne halnum]
    simp only [List.headD_cons]
    rw [mkAddress]
    have hupper : cs.map upperByte = cs := by
      rw [show cs.map upperByte = cs.map id from
        List.map_congr_left (fun c hc => upperByte_id c (halnum c hc))]
      exact List.map_id cs
    simp only [hupper]
    rw [if_pos (by
      rw [Bool.and_eq_true_iff]
      constructor
      · simpa using hne
      · rw [List.all_eq_true]; exact halnum)]
    rw [addrByte7]
    simp only [Except.ok.injEq, Address.mk.injEq]
    cases dg <;> cases hl
    · simp
      omega
    · simp
      omega
    · exact absurd (hdigi rfl) (by simp)
    · simp
      omega

/-- C2 (amended): decoding reproduces every valid address whose `digi` flag is
only set together with `a7_hldc` (for the other flag combinations see the
counterexample); the encoder succeeds and produces `addrEnc`. -/
theorem c2_address_roundtrip (a : Address) (h : validAddress a) :
    Address.to_bytes a = Except.ok (addrEnc a) ∧
    Address.from_bytes (addrEnc a) = Except.ok a :=
  addr_roundtrip a h

/-- C2 (witness for the amended theorem): instantiated at the address
`N0CALL-1` with both `digi` and `a7_hldc` set. -/
theorem c2_address_roundtrip_witness :
    validAddress ⟨[78, 48, 67, 65, 76, 76], 1, true, true⟩ ∧
    (Address.to_bytes ⟨[78, 48, 67, 65, 76, 76], 1, true, true⟩ =
      Except.ok (addrEnc ⟨[78, 48, 67, 65, 76, 76], 1, true, true⟩) ∧
    Address.from_bytes (addrEnc ⟨[78, 48, 67, 65, 76, 76], 1, true, true⟩) =
      Except.ok ⟨[78, 48, 67, 65, 76, 76], 1, true, true⟩) :=
  ⟨by decide, c2_address_roundtrip ⟨[78, 48, 67, 65, 76, 76], 1, true, true⟩ (by decide)⟩

/-! ## C1 / C10: frame encode-decode round trip -/

/-- The PID bytes `Frame.__bytes__` appends: the pid value for I/UI frames,
nothing otherwise (defined for frames whose pid is present when required). -/
def pidPart (f : Frame) : List Nat :=
  if pidPresent f.control.v then f.pid.getD [] else []

/-- The byte string produced by the success branch of `Frame.__bytes__` for a
frame with no FCS (associated to the right for the benefit of the parser
lemmas; `Frame.to_bytes` produces the same list). -/
def frameEnc (f : Frame) : List Nat :=
  addrEnc f.destination ++ (addrEnc f.source ++
    ((f.path.map addrEnc).flatten ++ ([f.control.v] ++ (pidPart f ++ f.info))))

theorem mapM_to_bytes (ps : List Address) (h : ∀ p ∈ ps, validAddress p) :
    ps.mapM Address.to_bytes = Except.ok (ps.map addrEnc) := by
  induction ps with
  | nil => rfl
  | cons p ps' ih =>
    rw [List.mapM_cons, (addr_roundtrip p (h p (List.mem_cons_self p ps'))).1,
      ih (fun q hq => h q (List.mem_cons_of_mem p hq))]
    rfl

theorem to_bytes_ok (f : Frame) (hv : validFrame f) (hfcs : f.fcs = none) :
    Frame.to_bytes f = Except.ok (frameEnc f) := by
  obtain ⟨hd, hs, hp, _, _, hpid1, hpid0⟩ := hv
  have hdo := (addr_roundtrip f.destination hd).1
  have hso := (addr_roundtrip f.source hs).1
  have hmapM := mapM_to_bytes f.path hp
  cases hpp : pidPresent f.control.v with
  | true =>
    have hone := hpid1 hpp
    cases hpd : f.pid with
    | none => rw [hpd] at hone; simp [pidIsOneByte] at hone
    | some pb =>
      simp only [Frame.to_bytes, hdo, hso, hfcs, hpp, hpd, frameEnc, pidPart,
        Option.getD_some, if_true]
      rw [hmapM]
      show Except.ok (addrEnc f.destination ++ addrEnc f.source ++
        (List.map addrEnc f.path).flatten ++ [f.control.v] ++ pb ++ f.info) = _
      simp [List.append_assoc]
  | false =>
    simp only [Frame.to_bytes, hdo, hso, hfcs, hpp, hpid0 hpp, frameEnc, pidPart,
      Bool.false_eq_true, if_false]
    rw [hmapM]
    show Except.ok (addrEnc f.destination ++ addrEnc f.source ++
      (List.map addrEnc f.path).flatten ++ [f.control.v] ++ [] ++ f.info) = _
    simp [List.append_assoc]

theorem frameEnc_drop14 (f : Frame) (hd : validAddress f.destination)
    (hs : validAddress f.source) :
    (frameEnc f).drop 14 =
      (f.path.map addrEnc).flatten ++ ([f.control.v] ++ (pidPart f ++ f.info)) := by
  rw [frameEnc, show addrEnc f.destination ++ (addrEnc f.source ++
      ((f.path.map addrEnc).flatten ++ ([f.control.v] ++ (pidPart f ++ f.info)))) =
    (addrEnc f.destination ++ addrEnc f.source) ++
      ((f.path.map addrEnc).flatten ++ ([f.control.v] ++ (pidPart f ++ f.info))) by
    simp [List.append_assoc]]
  exact drop_len_of_eq _ _ 14 (by
    rw [List.length_append, addrEnc_length _ hd.2.1, addrEnc_length _ hs.2.1])

theorem pySlice_block (pre blk rest : List Nat) (s k : Nat)
    (hs : pre.length = s) (hk : blk.length = k) :
    pySlice (pre ++ (blk ++ rest)) s (s + k) = blk := by
  rw [pySlice, show s + k - s = k by omega, drop_len_of_eq pre _ s hs,
    take_len_of_eq blk rest k hk]

theorem drop_add_drop (b : List Nat) (s k : Nat) :
    b.drop (s + k) = (b.drop s).drop k := by
  rw [List.drop_drop, Nat.add_comm]

theorem consumeFlags_stop (b : List Nat) (fuel : Nat) (x : Nat) (xs : List Nat)
    (hb : b = x :: xs) (hx : x ≠ AX25_FLAG) :
    consumeFlags b (fuel + 1) 0 = Except.ok 0 := by
  subst hb
  rw [consumeFlags, dif_pos (by simp)]
  rw [if_neg (by simpa using hx)]

theorem from_control_byte_always (v : Nat) :
    ∃ t, FrameType.from_control_byte v = some t := by
  cases h : FrameType.from_control_byte v with
  | some t => exact ⟨t, rfl⟩
  | none =>
    have hfind : frameTypeMembers.find? (fun t => v &&& t.mask == t.mask) = none := h
    rw [List.find?_eq_none] at hfind
    have hI := hfind FrameType.I (by rw [frameTypeMembers]; simp)
    simp [FrameType.mask] at hI

theorem mkControl_single (v : Nat) : mkControl [v] = Except.ok ⟨v⟩ := by
  obtain ⟨t, ht⟩ := from_control_byte_always v
  rw [mkControl, ht]

theorem findIdxFrom_eq_none_iff (c : Nat) (l : List Nat) :
    findIdxFrom c l = none ↔ c ∉ l := by
  induction l with
  | nil => simp [findIdxFrom]
  | cons x xs ih =>
    rw [findIdxFrom]
    by_cases hx : x = c
    · simp [hx]
    · rw [if_neg hx]
      constructor
      · intro h
        have hnone : findIdxFrom c xs = none := by
          cases hfi : findIdxFrom c xs with
          | none => rfl
          | some j => rw [hfi] at h; simp [Option.map] at h
        rw [List.mem_cons]
        rintro (h1 | h2)
        · exact hx h1.symm
        · exact (ih.mp hnone) h2
      · intro h
        have hcx : c ∉ xs := fun hm => h (List.mem_cons_of_mem x hm)
        rw [ih.mpr hcx]
        rfl

theorem flatten_addrEnc_length (ps : List Address) (h : ∀ p ∈ ps, validAddress p) :
    (ps.map addrEnc).flatten.length = 7 * ps.length := by
  induction ps with
  | nil => simp
  | cons p ps' ih =>
    rw [List.map_cons, List.flatten_cons, List.length_append,
      addrEnc_length p (h p (List.mem_cons_self p ps')).2.1,
      ih (fun q hq => h q (List.mem_cons_of_mem p hq)), List.length_cons]
    omega

theorem parsePath_ok (ps : List Address) :
    ∀ (b : List Nat) (s fuel : Nat) (last : Address) (acc : List Address)
      (rest : List Nat),
      (∀ p ∈ ps, validAddress p) → lastHldcB ps = true →
      b.drop s = (ps.map addrEnc).flatten ++ rest →
      (if ps.isEmpty then last.a7_hldc = true else last.a7_hldc = false) →
      ps.length + 1 ≤ fuel →
      parsePathAux b fuel s last acc = Except.ok (acc.reverse ++ ps, s + 7 * ps.length) := by
  induction ps with
  | nil =>
    intro b s fuel last acc rest _ _ _ hlast hfuel
    simp only [List.isEmpty_nil, if_true] at hlast
    cases fuel with
    | zero => omega
    | succ n =>
      rw [parsePathAux, if_pos hlast]
      simp
  | cons p ps' ih =>
    intro b s fuel last acc rest hval hlh hdrop hlast hfuel
    simp at hlast
    cases fuel with
    | zero => omega
    | succ n =>
      rw [parsePathAux, if_neg (by simp [hlast])]
      have hvp : validAddress p := hval p (List.mem_cons_self p ps')
      have hdropP : b.drop s = addrEnc p ++ ((ps'.map addrEnc).flatten ++ rest) := by
        rw [hdrop, List.map_cons, List.flatten_cons, List.append_assoc]
      have hslice : pySlice b s (s + 7) = addrEnc p := by
        rw [pySlice, show s + 7 - s = 7 by omega, hdropP,
          take_len_of_eq _ _ 7 (addrEnc_length p hvp.2.1)]
      rw [hslice, (addr_roundtrip p hvp).2]
      have hdrop7 : b.drop (s + 7) = (ps'.map addrEnc).flatten ++ rest := by
        rw [drop_add_drop, hdropP, drop_len_of_eq _ _ 7 (addrEnc_length p hvp.2.1)]
      have hlast7 : (if ps'.isEmpty then p.a7_hldc = true else p.a7_hldc = false) := by
        cases ps' with
        | nil => simpa [lastHldcB] using hlh
        | cons q qs =>
          have hconj : p.a7_hldc = false ∧ lastHldcB (q :: qs) = true := by
            simpa [lastHldcB] using hlh
          simpa using hconj.1
      have hlh7 : lastHldcB ps' = true := by
        cases ps' with
        | nil => rfl
        | cons q qs =>
          have hconj : p.a7_hldc = false ∧ lastHldcB (q :: qs) = true := by
            simpa [lastHldcB] using hlh
          exact hconj.2
      have hfuel7 : ps'.length + 1 ≤ n := by
        simp only [List.length_cons] at hfuel
        omega
      show parsePathAux b n (s + 7) p (p :: acc) = _
      rw [ih b (s + 7) n p (p :: acc) rest
        (fun q hq => hval q (List.mem_cons_of_mem p hq)) hlh7 hdrop7 hlast7 hfuel7]
      simp only [List.reverse_cons, List.append_assoc, List.singleton_append,
        List.length_cons, Except.ok.injEq, Prod.mk.injEq]
      exact ⟨trivial, by omega⟩

theorem pySlice_block2 (pre blk rest : List Nat) (s t : Nat)
    (hs : pre.length = s) (ht : t = s + blk.length) :
    pySlice (pre ++ (blk ++ rest)) s t = blk := by
  subst ht
  exact pySlice_block pre blk rest s blk.length hs rfl

theorem fromBytes_frameEnc (f : Frame) (hv : validFrame f) (hfcs : f.fcs = none)
    (hnf : AX25_FLAG ∉ f.info) :
    Frame.from_bytes (frameEnc f) =
      if f.info.isEmpty then
        Except.error "IndexError: debug message formats the last byte of empty info"
      else Except.ok [f] := by
  obtain ⟨hd, hs, hp, hpe, hpne, hpid1, hpid0⟩ := hv
  have hlenD : (addrEnc f.destination).length = 7 := addrEnc_length _ hd.2.1
  have hlenS : (addrEnc f.source).length = 7 := addrEnc_length _ hs.2.1
  have hlenP : (f.path.map addrEnc).flatten.length = 7 * f.path.length :=
    flatten_addrEnc_length _ hp
  set b := frameEnc f with hb
  have hguard : 0 + 1 < b.length := by
    rw [hb, frameEnc, List.length_append, hlenD]
    omega
  -- the first byte of the encoding is a doubled callsign character, not a flag
  obtain ⟨c0, cs0, hcs0⟩ : ∃ c0 cs0, f.destination.callsign = c0 :: cs0 := by
    cases hx : f.destination.callsign with
    | nil => exact absurd hx hd.1
    | cons y ys => exact ⟨y, ys, rfl⟩
  have hc0 : isUpperAlnum c0 = true := hd.2.2.1 c0 (by rw [hcs0]; exact List.mem_cons_self c0 cs0)
  have hhead : b = c0 * 2 :: ((cs0 ++ List.replicate (6 - (c0 :: cs0).length) 32).map
      (fun x => x * 2) ++ [addrByte7 f.destination] ++
      (addrEnc f.source ++ ((f.path.map addrEnc).flatten ++
        ([f.control.v] ++ (pidPart f ++ f.info))))) := by
    rw [hb, frameEnc, addrEnc, pyLjust, hcs0]
    simp [List.append_assoc]
  have hc0ne : c0 * 2 ≠ AX25_FLAG := by
    rw [isUpperAlnum] at hc0
    rw [AX25_FLAG]
    rcases Bool.or_eq_true_iff.mp hc0 with h1 | h1 <;>
      rcases Bool.and_eq_true_iff.mp h1 with ⟨ha, hbb⟩ <;>
      simp only [decide_eq_true_eq] at ha hbb <;> omega
  have h1 : consumeFlags b (b.length + 1) 0 = Except.ok 0 :=
    consumeFlags_stop b b.length _ _ hhead hc0ne
  have hslD : pySlice b 0 (0 + 7) = addrEnc f.destination := by
    show (b.drop 0).take (0 + 7 - 0) = _
    rw [List.drop_zero, hb, frameEnc]
    exact take_len_of_eq _ _ (0 + 7 - 0) (by rw [hlenD])
  have h2 : Address.from_bytes (pySlice b 0 (0 + 7)) = Except.ok f.destination := by
    rw [hslD]
    exact (addr_roundtrip f.destination hd).2
  have hslS : pySlice b (0 + 7) (0 + 14) = addrEnc f.source := by
    rw [hb, frameEnc]
    exact pySlice_block2 _ _ _ (0 + 7) (0 + 14) (by rw [hlenD]) (by rw [hlenS])
  have h3 : Address.from_bytes (pySlice b (0 + 7) (0 + 14)) = Except.ok f.source := by
    rw [hslS]
    exact (addr_roundtrip f.source hs).2
  have hlastHldc : lastHldcB f.path = true := by
    by_cases hpem : f.path = []
    · rw [hpem]; rfl
    · exact (hpne hpem).2
  have hlastIf : (if f.path.isEmpty then f.source.a7_hldc = true
      else f.source.a7_hldc = false) := by
    by_cases hpem : f.path = []
    · simp [hpem, hpe hpem]
    · have hne : f.path.isEmpty = false := by
        cases hx : f.path with
        | nil => exact absurd hx hpem
        | cons y ys => rfl
      rw [hne]
      simpa using (hpne hpem).1
  have hdrop14 : b.drop (0 + 14) = (f.path.map addrEnc).flatten ++
      ([f.control.v] ++ (pidPart f ++ f.info)) := by
    rw [hb]
    exact frameEnc_drop14 f hd hs
  have h4 : parsePathAux b (b.length + 1) (0 + 14) f.source [] =
      Except.ok (f.path, 0 + 14 + 7 * f.path.length) := by
    have := parsePath_ok f.path b (0 + 14) (b.length + 1) f.source []
      ([f.control.v] ++ (pidPart f ++ f.info)) hp hlastHldc hdrop14 hlastIf
      (by
        have hblen : b.length = 7 + (7 + (7 * f.path.length +
            (1 + ((pidPart f).length + f.info.length)))) := by
          rw [hb, frameEnc]
          simp only [List.length_append, hlenD, hlenS, hlenP, List.length_cons,
            List.length_nil]
        omega)
    simpa using this
  have hbC : b = (addrEnc f.destination ++ (addrEnc f.source ++
      (f.path.map addrEnc).flatten)) ++
      ([f.control.v] ++ (pidPart f ++ f.info)) := by
    rw [hb, frameEnc]
    simp [List.append_assoc]
  have hpreC : (addrEnc f.destination ++ (addrEnc f.source ++
      (f.path.map addrEnc).flatten)).length = 0 + 14 + 7 * f.path.length := by
    simp only [List.length_append, hlenD, hlenS, hlenP]
    omega
  have hslC : pySlice b (0 + 14 + 7 * f.path.length) (0 + 14 + 7 * f.path.length + 1) =
      [f.control.v] := by
    rw [hbC]
    exact pySlice_block2 _ _ _ _ _ hpreC (by simp)
  have h5 : mkControl (pySlice b (0 + 14 + 7 * f.path.length)
      (0 + 14 + 7 * f.path.length + 1)) = Except.ok f.control := by
    rw [hslC]
    exact mkControl_single f.control.v
  rw [Frame.from_bytes, fromBytesAux, if_pos hguard, h1]
  simp only [h2, h3, h4, h5]
  simp only [Nat.zero_add]
  cases hpp : pidPresent f.control.v with
  | true =>
    have hgetd : (f.pid.getD []).length = 1 := by
      cases hpd : f.pid with
      | none => rw [hpd] at hpid1; simpa [pidIsOneByte] using hpid1 hpp
      | some pb =>
        have hone := hpid1 hpp
        rw [hpd] at hone
        simpa [pidIsOneByte] using hone
    obtain ⟨x, hx⟩ := List.length_eq_one.mp hgetd
    have hpidPart : pidPart f = f.pid.getD [] := by rw [pidPart, if_pos hpp]
    have hbD : b = ((addrEnc f.destination ++ (addrEnc f.source ++
        (f.path.map addrEnc).flatten)) ++ [f.control.v]) ++
        (f.pid.getD [] ++ f.info) := by
      rw [hbC, hpidPart]
      simp [List.append_assoc]
    have hlenCtl : ((addrEnc f.destination ++ (addrEnc f.source ++
        (f.path.map addrEnc).flatten)) ++ [f.control.v]).length =
        14 + 7 * f.path.length + 1 := by
      rw [List.length_append, hpreC]
      simp
    have hslP : pySlice b (14 + 7 * f.path.length + 1)
        (14 + 7 * f.path.length + 2) = f.pid.getD [] := by
      rw [hbD]
      refine pySlice_block2 _ _ _ _ _ hlenCtl ?_
      rw [hgetd]
    have hdropI : b.drop (14 + 7 * f.path.length + 2) = f.info := by
      rw [hbD, show ((addrEnc f.destination ++ (addrEnc f.source ++
          (f.path.map addrEnc).flatten)) ++ [f.control.v]) ++
          (f.pid.getD [] ++ f.info) = (((addrEnc f.destination ++ (addrEnc f.source ++
          (f.path.map addrEnc).flatten)) ++ [f.control.v]) ++ f.pid.getD []) ++ f.info by
        simp [List.append_assoc]]
      refine drop_len_of_eq _ _ _ ?_
      rw [List.length_append, hlenCtl, hgetd]
    have hfind : pyFind AX25_FLAG b (14 + 7 * f.path.length + 2) = none := by
      rw [pyFind, hdropI, (findIdxFrom_eq_none_iff AX25_FLAG f.info).mpr hnf]
      rfl
    have hpidSome : f.pid = some (f.pid.getD []) := by
      cases hpd : f.pid with
      | none => rw [hpd] at hpid1; simpa [pidIsOneByte] using hpid1 hpp
      | some pb => rfl
    have hmk : mkFrame f.destination f.source f.path f.control
        (some (f.pid.getD [])) f.info none = Except.ok f := by
      rw [mkFrame, if_pos (by simp [pidOk, fcsOk, hgetd])]
      rw [show (⟨f.destination, f.source, f.path, f.control, some (f.pid.getD []),
        f.info, none⟩ : Frame) = f by rw [← hpidSome, ← hfcs]]
    cases hie : f.info.isEmpty with
    | true => simp [hpp, hfind, hdropI, hie]
    | false => simp [hpp, hfind, hdropI, hie, hslP, hmk]
  | false =>
    have hpidn : f.pid = none := hpid0 hpp
    have hpidPart : pidPart f = [] := by rw [pidPart, if_neg (by simp [hpp])]
    have hbD : b = ((addrEnc f.destination ++ (addrEnc f.source ++
        (f.path.map addrEnc).flatten)) ++ [f.control.v]) ++ f.info := by
      rw [hbC, hpidPart]
      simp [List.append_assoc]
    have hlenCtl : ((addrEnc f.destination ++ (addrEnc f.source ++
        (f.path.map addrEnc).flatten)) ++ [f.control.v]).length =
        14 + 7 * f.path.length + 1 := by
      rw [List.length_append, hpreC]
      simp
    have hdropI : b.drop (14 + 7 * f.path.length + 1) = f.info := by
      rw [hbD]
      exact drop_len_of_eq _ _ _ hlenCtl
    have hfind : pyFind AX25_FLAG b (14 + 7 * f.path.length + 1) = none := by
      rw [pyFind, hdropI, (findIdxFrom_eq_none_iff AX25_FLAG f.info).mpr hnf]
      rfl
    have hmk : mkFrame f.destination f.source f.path f.control none f.info none =
        Except.ok f := by
      rw [mkFrame, if_pos (by simp [pidOk, fcsOk])]
      rw [show (⟨f.destination, f.source, f.path, f.control, none,
        f.info, none⟩ : Frame) = f by
        have heta : f = ⟨f.destination, f.source, f.path, f.control, f.pid,
          f.info, f.fcs⟩ := rfl
        rw [heta, hpidn, hfcs]]
    cases hie : f.info.isEmpty with
    | true => simp [hpp, hfind, hdropI, hie]
    | false => simp [hpp, hfind, hdropI, hie, hmk]

/-- Concrete valid frame with empty info for the C1 counterexample:
APRS>N0CALL UI frame, empty path, empty info, no FCS. -/
def c1Frame : Frame :=
  { destination := ⟨[65, 80, 82, 83], 0, false, false⟩
    source := ⟨[78, 48, 67, 65, 76, 76], 0, false, true⟩
    path := []
    control := ⟨3⟩
    pid := some [240]
    info := []
    fcs := none }

/-- The encoding of `c1Frame`. -/
def c1Enc : List Nat :=
  [130, 160, 164, 166, 64, 64, 96, 156, 96, 134, 130, 152, 152, 97, 3, 240]

/-- C1 (counterexample): `c1Frame` is a valid frame with no FCS requested, but
`Frame.from_bytes (bytes c1Frame)` raises `IndexError` (the missing-end-flag
debug message indexes the last byte of the empty info) instead of returning
`[c1Frame]`. -/
theorem c1_counterexample :
    validFrame c1Frame ∧ c1Frame.fcs = none ∧
    Frame.to_bytes c1Frame = Except.ok c1Enc ∧
    Frame.from_bytes c1Enc =
      Except.error "IndexError: debug message formats the last byte of empty info" ∧
    Frame.from_bytes c1Enc ≠ Except.ok [c1Frame] := by
  refine ⟨by decide, rfl, by decide, by decide, by decide⟩

/-- C1 (amended): for every valid frame with no FCS requested whose info is
nonempty and contains no HDLC flag byte (0x7E), decoding the encoding yields
exactly the one-element list containing the frame. (Empty info raises
`IndexError`; a flag byte inside info truncates the frame — see the
counterexample.) -/
theorem c1_roundtrip (f : Frame) (hv : validFrame f) (hfcs : f.fcs = none)
    (hinfo : f.info ≠ []) (hflag : AX25_FLAG ∉ f.info) :
    Frame.to_bytes f = Except.ok (frameEnc f) ∧
    Frame.from_bytes (frameEnc f) = Except.ok [f] := by
  refine ⟨to_bytes_ok f hv hfcs, ?_⟩
  rw [fromBytes_frameEnc f hv hfcs hflag, if_neg]
  intro hempty
  cases hx : f.info with
  | nil => exact hinfo hx
  | cons y ys => rw [hx] at hempty; simp at hempty

/-- Concrete frame for the C1 witness: APRS>N0CALL,WIDE1-1 UI frame with
info `test`. -/
def c1WitnessFrame : Frame :=
  { destination := ⟨[65, 80, 82, 83], 0, false, false⟩
    source := ⟨[78, 48, 67, 65, 76, 76], 0, false, false⟩
    path := [⟨[87, 73, 68, 69, 49], 1, false, true⟩]
    control := ⟨3⟩
    pid := some [240]
    info := [116, 101, 115, 116]
    fcs := none }

/-- C1 (witness for the amended theorem). -/
theorem c1_roundtrip_witness :
    (validFrame c1WitnessFrame ∧ c1WitnessFrame.fcs = none ∧
      c1WitnessFrame.info ≠ [] ∧ AX25_FLAG ∉ c1WitnessFrame.info) ∧
    (Frame.to_bytes c1WitnessFrame = Except.ok (frameEnc c1WitnessFrame) ∧
      Frame.from_bytes (frameEnc c1WitnessFrame) = Except.ok [c1WitnessFrame]) :=
  ⟨⟨by decide, by decide, by decide, by decide⟩,
    c1_roundtrip c1WitnessFrame (by decide) (by decide) (by decide) (by decide)⟩

/-- C10: for every valid frame with no FCS requested and empty info — so that
its encoding contains no 0x7E at or after the info-start position and the info
payload is empty — `Frame.from_bytes` raises an uncaught `IndexError` (the
missing-end-flag debug message evaluates `bin(info[-1])` on the empty info)
instead of returning the decoded frames. -/
theorem c10_empty_info_index_error (f : Frame) (hv : validFrame f)
    (hfcs : f.fcs = none) (hinfo : f.info = []) :
    Frame.to_bytes f = Except.ok (frameEnc f) ∧
    Frame.from_bytes (frameEnc f) =
      Except.error "IndexError: debug message formats the last byte of empty info" := by
  refine ⟨to_bytes_ok f hv hfcs, ?_⟩
  rw [fromBytes_frameEnc f hv hfcs (by rw [hinfo]; exact List.not_mem_nil AX25_FLAG),
    if_pos (by rw [hinfo]; rfl)]

/-- Concrete frame for the C10 witness: APRS>N0CALL UI frame with empty info. -/
def c10Frame : Frame :=
  { destination := ⟨[65, 80, 82, 83], 0, false, false⟩
    source := ⟨[78, 48, 67, 65, 76, 76], 0, false, true⟩
    path := []
    control := ⟨3⟩
    pid := some [240]
    info := []
    fcs := none }

/-- C10 (witness). -/
theorem c10_empty_info_index_error_witness :
    (validFrame c10Frame ∧ c10Frame.fcs = none ∧ c10Frame.info = []) ∧
    (Frame.to_bytes c10Frame = Except.ok (frameEnc c10Frame) ∧
      Frame.from_bytes (frameEnc c10Frame) =
        Except.error "IndexError: debug message formats the last byte of empty info") :=
  ⟨⟨by decide, by decide, by decide⟩,
    c10_empty_info_index_error c10Frame (by decide) (by decide) (by decide)⟩

/-! ## C9: end-to-end example -/

/-- The frame `Frame.ui(destination="APRS", source="N0CALL",
path=["WIDE1-1"], info=b"test")` builds. -/
def c9Frame : Frame :=
  { destination := ⟨[65, 80, 82, 83], 0, false, false⟩
    source := ⟨[78, 48, 67, 65, 76, 76], 0, false, false⟩
    path := [⟨[87, 73, 68, 69, 49], 1, false, true⟩]
    control := ⟨3⟩
    pid := some [240]
    info := [116, 101, 115, 116]
    fcs := none }

/-- The AX.25 encoding of `c9Frame`. -/
def c9Bytes : List Nat :=
  [130, 160, 164, 166, 64, 64, 96,
   156, 96, 134, 130, 152, 152, 96,
   174, 146, 136, 138, 98, 64, 99,
   3, 240, 116, 101, 115, 116]

/-- C9: building `Frame.ui("APRS", "N0CALL", ["WIDE1-1"], b"test")`, encoding
it, wrapping the bytes in KISS framing (`FEND, 0x00, escaped payload, FEND`),
feeding that through `KISSDecode.update` and then through `Frame.from_bytes`
reproduces exactly one frame equal to the original, whose fcs is absent. -/
theorem c9_end_to_end :
    Frame.ui_strs "APRS" "N0CALL" ["WIDE1-1"] [116, 101, 115, 116] =
      Except.ok c9Frame ∧
    Frame.to_bytes c9Frame = Except.ok c9Bytes ∧
    (kissUpdate true []
      ([FEND, DATA_FRAME] ++ escape_special_codes c9Bytes ++ [FEND])).2 = [c9Bytes] ∧
    Frame.from_bytes c9Bytes = Except.ok [c9Frame] ∧
    c9Frame.fcs = none := by
  refine ⟨by decide, by decide, by decide, by decide, rfl⟩

/-! ## C3: multi-frame batches and corruption -/

/-- The common header of the three batch frames: APRS>N0CALL with an
immediate-hldc source. -/
def c3Core (infoByte : Nat) : List Nat :=
  [130, 160, 164, 166, 64, 64, 96, 156, 96, 134, 130, 152, 152, 97, 3, 240, infoByte]

/-- A flag-delimited batch of three well-formed frames, each followed by a
2-byte FCS trailer before the closing flag. -/
def c3GoodBatch : List Nat :=
  [126] ++ c3Core 65 ++ [1, 2] ++ [126] ++ c3Core 66 ++ [1, 2] ++ [126] ++
    c3Core 67 ++ [1, 2] ++ [126]

/-- The same batch with the first destination byte of the middle frame
corrupted to 0x01 (which decodes to the invalid callsign byte 0x00). -/
def c3BadBatch : List Nat :=
  [126] ++ c3Core 65 ++ [1, 2] ++ [126] ++
    ([1] ++ (c3Core 66).tail) ++ [1, 2] ++ [126] ++ c3Core 67 ++ [1, 2] ++ [126]

/-- The decoded value of the batch frame with the given info byte. -/
def c3Frame (infoByte : Nat) : Frame :=
  { destination := ⟨[65, 80, 82, 83], 0, false, false⟩
    source := ⟨[78, 48, 67, 65, 76, 76], 0, false, true⟩
    path := []
    control := ⟨3⟩
    pid := some [240]
    info := [infoByte]
    fcs := some [1, 2] }

/-- C3 (counterexample): on a batch of three flag-delimited frames whose
middle frame is corrupted, `Frame.from_bytes` does not return the other two
frames — it raises the malformed-callsign error and returns nothing at all. -/
theorem c3_counterexample :
    Frame.from_bytes c3BadBatch =
      Except.error "callsign does not match VALID_CALLSIGN_REX" ∧
    ∀ frames : List Frame, Frame.from_bytes c3BadBatch ≠ Except.ok frames := by
  refine ⟨by decide, ?_⟩
  intro frames h
  rw [show Frame.from_bytes c3BadBatch =
    Except.error "callsign does not match VALID_CALLSIGN_REX" by decide] at h
  exact absurd h (by simp)

/-- C3 (amended): `Frame.from_bytes` has no per-frame error isolation. A batch
of N concatenated flag-delimited well-formed frames decodes to exactly N
frames in stream order, but corrupting one frame makes the whole call raise
that frame's malformed-field error, returning none of the N frames. -/
theorem c3_batch_no_isolation :
    Frame.from_bytes c3GoodBatch =
      Except.ok [c3Frame 65, c3Frame 66, c3Frame 67] ∧
    Frame.from_bytes c3BadBatch =
      Except.error "callsign does not match VALID_CALLSIGN_REX" := by
  refine ⟨by decide, by decide⟩

/-! ## C6: placement of the a7_hldc bit in encoded frames -/

/-- Conditions under which `Address.__bytes__` succeeds (no validity of the
flags is needed: the encoder checks only the callsign length, the byte range
of the shifted callsign and the shifted ssid). -/
def encodable (a : Address) : Prop :=
  a.callsign.length ≤ 6 ∧ (∀ c ∈ a.callsign, c < 128) ∧ a.ssid ≤ 127

instance (a : Address) : Decidable (encodable a) := by
  unfold encodable; infer_instance

theorem to_bytes_of_encodable (a : Address) (h : encodable a) :
    Address.to_bytes a = Except.ok (addrEnc a) := by
  obtain ⟨h6, hlt, hss⟩ := h
  rw [Address.to_bytes, if_neg (by omega), if_neg, if_neg (by omega)]
  rw [List.any_eq_true]
  rintro ⟨c, hc, h128⟩
  rw [pyLjust] at hc
  rcases List.mem_append.mp hc with h1 | h1
  · have := hlt c h1
    simp only [decide_eq_true_eq] at h128
    omega
  · have := List.eq_of_mem_replicate h1
    simp only [decide_eq_true_eq] at h128
    omega

theorem mapM_to_bytes_enc (ps : List Address) (h : ∀ p ∈ ps, encodable p) :
    ps.mapM Address.to_bytes = Except.ok (ps.map addrEnc) := by
  induction ps with
  | nil => rfl
  | cons p ps' ih =>
    rw [List.mapM_cons, to_bytes_of_encodable p (h p (List.mem_cons_self p ps')),
      ih (fun q hq => h q (List.mem_cons_of_mem p hq))]
    rfl

theorem to_bytes_ok_encodable (f : Frame) (hd : encodable f.destination)
    (hs : encodable f.source) (hp : ∀ p ∈ f.path, encodable p)
    (hpp : pidPresent f.control.v = true) (pb : List Nat) (hpb : f.pid = some pb)
    (hfcs : f.fcs = none) :
    Frame.to_bytes f = Except.ok (frameEnc f) := by
  have hdo := to_bytes_of_encodable f.destination hd
  have hso := to_bytes_of_encodable f.source hs
  have hmapM := mapM_to_bytes_enc f.path hp
  simp only [Frame.to_bytes, hdo, hso, hfcs, hpp, hpb, frameEnc, pidPart,
    Option.getD_some, if_true]
  rw [hmapM]
  show Except.ok (addrEnc f.destination ++ addrEnc f.source ++
    (List.map addrEnc f.path).flatten ++ [f.control.v] ++ pb ++ f.info) = _
  simp [List.append_assoc]

theorem addrByte7_parity (a : Address) :
    addrByte7 a % 2 = if a.a7_hldc then 1 else 0 := by
  obtain ⟨cs, ssid, dg, hl⟩ := a
  rw [addrByte7]
  cases dg <;> cases hl <;> simp <;> omega

theorem addrEnc_get6 (a : Address) (h6 : a.callsign.length ≤ 6) :
    (addrEnc a).get? 6 = some (addrByte7 a) := by
  rw [addrEnc]
  rw [List.get?_append_right (by simp [pyLjust_length _ h6])]
  rw [show 6 - ((pyLjust a.callsign 6).map (fun b => b * 2)).length = 0 by
    simp [pyLjust_length _ h6]]
  rfl

theorem get_flatten_blocks (blocks : List (List Nat)) :
    ∀ (rest : List Nat), (∀ blk ∈ blocks, blk.length = 7) →
    ∀ k, k < blocks.length →
      (blocks.flatten ++ rest).get? (7 * k + 6) =
        (blocks.get? k).bind (fun blk => blk.get? 6) := by
  induction blocks with
  | nil =>
    intro rest _ k hk
    simp at hk
  | cons blk blocks' ih =>
    intro rest h7 k hk
    have hblk7 : blk.length = 7 := h7 blk (List.mem_cons_self _ _)
    rw [List.flatten_cons, List.append_assoc]
    cases k with
    | zero =>
      rw [show 7 * 0 + 6 = 6 by rfl, List.get?_append (by omega)]
      rfl
    | succ kk =>
      rw [List.get?_append_right (by omega)]
      rw [show 7 * (kk + 1) + 6 - blk.length = 7 * kk + 6 by omega]
      rw [ih rest (fun bb hb => h7 bb (List.mem_cons_of_mem _ hb)) kk (by simpa using hk)]
      rfl

theorem getq_map {α β : Type} (f : α → β) (l : List α) (n : Nat) :
    (l.map f).get? n = (l.get? n).map f := by
  induction l generalizing n with
  | nil => simp
  | cons x xs ih =>
    cases n with
    | zero => rfl
    | succ m => simpa using ih m

theorem getq_mem {α : Type} (l : List α) (n : Nat) (a : α) (h : l.get? n = some a) :
    a ∈ l := by
  induction l generalizing n with
  | nil => simp [List.get?] at h
  | cons x xs ih =>
    cases n with
    | zero =>
      rw [List.get?] at h
      injection h with h
      rw [← h]
      exact List.mem_cons_self x xs
    | succ m =>
      rw [List.get?] at h
      exact List.mem_cons_of_mem x (ih m h)

theorem getq_take {α : Type} (l : List α) (m i : Nat) (h : i < m) :
    (l.take m).get? i = l.get? i := by
  induction l generalizing m i with
  | nil => simp
  | cons x xs ih =>
    cases m with
    | zero => omega
    | succ mm =>
      cases i with
      | zero => rfl
      | succ ii => simpa using ih mm ii (by omega)

theorem getLastq_eq {α : Type} (l : List α) : l.getLast? = l.get? (l.length - 1) := by
  induction l with
  | nil => rfl
  | cons x xs ih =>
    cases xs with
    | nil => rfl
    | cons y ys =>
      rw [List.getLast?_cons_cons, ih]
      rfl

/-- A concrete frame whose source is the terminal address but carries
`a7_hldc = false`: built directly (not via `Frame.ui`). -/
def c6Frame : Frame :=
  { destination := ⟨[65, 80, 82, 83], 0, false, false⟩
    source := ⟨[78, 48, 67, 65, 76, 76], 0, false, false⟩
    path := []
    control := ⟨3⟩
    pid := some [240]
    info := [65]
    fcs := none }

/-- C6 (counterexample): `Frame.__bytes__` copies each `Address`'s own flags
into the encoding instead of forcing the terminal address: for `c6Frame`
(empty path, so the source is the terminal address, but stored with
`a7_hldc=false`) the a7_hldc bit — bit 0 of byte 13, the 7th byte of the
encoded source — is 0, where the claim requires 1. -/
theorem c6_counterexample :
    Frame.to_bytes c6Frame = Except.ok (frameEnc c6Frame) ∧
    ((frameEnc c6Frame).get? 13).map (fun v => v % 2) = some 0 ∧
    ((frameEnc c6Frame).get? 13).map (fun v => v % 2) ≠ some 1 := by
  refine ⟨by decide, by decide, by decide⟩

/-- C6 (amended): the `a7_hldc` placement is established by the `Frame.ui`
constructor, not by the encoder. For a frame built by `Frame.ui` from
addresses — provided the destination does not itself carry `a7_hldc` and no
non-terminal path entry is structurally equal to the last one (the source
compares `p == path[-1]`) — the encoding has the a7_hldc bit (bit 0 of the
7th byte of each encoded address, at offset 7k+6) set on exactly the terminal
address: index `path.length + 1`, i.e. the last path entry, or the source
when the path is empty. -/
theorem c6_ui_hldc_placement (destination source : Address) (path : List Address)
    (info : List Nat)
    (hd : encodable destination) (hs : encodable source)
    (hp : ∀ p ∈ path, encodable p)
    (hdest : destination.a7_hldc = false)
    (hnodup : ∀ p ∈ path.dropLast, some p ≠ path.getLast?) :
    Frame.to_bytes (Frame.ui_addrs destination source path info) =
      Except.ok (frameEnc (Frame.ui_addrs destination source path info)) ∧
    ∀ k : Nat, k < 2 + path.length →
      ((frameEnc (Frame.ui_addrs destination source path info)).get? (7 * k + 6)).map
        (fun v => v % 2) =
        some (if k = path.length + 1 then 1 else 0) := by
  have hpenc : ∀ p ∈ path.map (fun p =>
      { p with a7_hldc := path.getLast? == some p }), encodable p := by
    intro p hpm
    rw [List.mem_map] at hpm
    obtain ⟨q, hq, rfl⟩ := hpm
    exact hp q hq
  have hpp3 : pidPresent 3 = true := by decide
  have hpidp : pidPart (Frame.ui_addrs destination source path info) = [240] := by
    show (if pidPresent 3 = true then (some [240] : Option (List Nat)).getD []
      else []) = [240]
    rw [if_pos hpp3]
    rfl
  constructor
  · exact to_bytes_ok_encodable (Frame.ui_addrs destination source path info)
      hd hs hpenc hpp3 [240] rfl rfl
  · intro k hk
    have hflat : frameEnc (Frame.ui_addrs destination source path info) =
        ((destination :: { source with a7_hldc := path.isEmpty } ::
          path.map (fun p => { p with a7_hldc := path.getLast? == some p })).map
            addrEnc).flatten ++ ([3] ++ ([240] ++ info)) := by
      rw [frameEnc,
        show (Frame.ui_addrs destination source path info).destination =
          destination from rfl,
        show (Frame.ui_addrs destination source path info).source =
          { source with a7_hldc := path.isEmpty } from rfl,
        show (Frame.ui_addrs destination source path info).path =
          path.map (fun p => { p with a7_hldc := path.getLast? == some p }) from rfl,
        show (Frame.ui_addrs destination source path info).control.v = 3 from rfl,
        hpidp,
        show (Frame.ui_addrs destination source path info).info = info from rfl]
      simp [List.append_assoc]
    have h7 : ∀ blk ∈ (destination :: { source with a7_hldc := path.isEmpty } ::
        path.map (fun p => { p with a7_hldc := path.getLast? == some p })).map
          addrEnc, blk.length = 7 := by
      intro blk hblk
      rw [List.mem_map] at hblk
      obtain ⟨p, hpmem, rfl⟩ := hblk
      rcases List.mem_cons.mp hpmem with h0 | h0
      · rw [h0]
        exact addrEnc_length _ hd.1
      rcases List.mem_cons.mp h0 with h1 | h1
      · rw [h1]
        exact addrEnc_length _ hs.1
      · exact addrEnc_length _ (hpenc p h1).1
    have hklen : k < ((destination :: { source with a7_hldc := path.isEmpty } ::
        path.map (fun p => { p with a7_hldc := path.getLast? == some p })).map
          addrEnc).length := by
      simp only [List.length_map, List.length_cons]
      omega
    rw [hflat, get_flatten_blocks _ _ h7 k hklen]
    rcases k with _ | k1
    · show ((addrEnc destination).get? 6).map (fun v => v % 2) = _
      rw [addrEnc_get6 _ hd.1]
      show some (addrByte7 destination % 2) = _
      rw [addrByte7_parity, hdest, if_neg (by simp), if_neg (by omega)]
    rcases k1 with _ | i
    · show ((addrEnc { source with a7_hldc := path.isEmpty }).get? 6).map
        (fun v => v % 2) = _
      rw [addrEnc_get6 { source with a7_hldc := path.isEmpty } hs.1]
      show some (addrByte7 { source with a7_hldc := path.isEmpty } % 2) = _
      rw [addrByte7_parity]
      cases path with
      | nil => rfl
      | cons q qs =>
        show some (if ((q :: qs).isEmpty = true) then 1 else 0) = _
        rw [if_neg (by simp), if_neg (by simp)]
    · have hilt : i < path.length := by omega
      show Option.map (fun v => v % 2)
        (((((path.map (fun p => { p with a7_hldc := path.getLast? == some p })).map
          addrEnc).get? i)).bind (fun blk => blk.get? 6)) =
        some (if i + 1 + 1 = path.length + 1 then 1 else 0)
      rw [getq_map, getq_map]
      cases hpi : path.get? i with
      | none =>
        rw [List.get?_eq_none] at hpi
        omega
      | some p =>
        have hpmem : p ∈ path := getq_mem path i p hpi
        show ((addrEnc { p with a7_hldc := path.getLast? == some p }).get? 6).map
          (fun v => v % 2) = _
        rw [addrEnc_get6 { p with a7_hldc := path.getLast? == some p } (hp p hpmem).1]
        show some (addrByte7 { p with a7_hldc := path.getLast? == some p } % 2) = _
        rw [addrByte7_parity]
        show some (if (path.getLast? == some p) = true then 1 else 0) = _
        by_cases hlast : i = path.length - 1
        · have hgl : path.getLast? = some p := by
            rw [getLastq_eq, ← hlast]
            exact hpi
          rw [hgl, if_pos (by simp), if_pos (by omega)]
        · have hdl : p ∈ path.dropLast := by
            rw [List.dropLast_eq_take]
            exact getq_mem _ i p (by rw [getq_take path _ i (by omega)]; exact hpi)
          have hbeq : (path.getLast? == some p) = false := by
            rw [beq_eq_false_iff_ne]
            intro hgl
            exact (hnodup p hdl) hgl.symm
          rw [hbeq, if_neg (by simp), if_neg (by omega)]

/-- C6 (witness for the amended theorem): instantiated at APRS>N0CALL with a
two-hop path WIDE1-1, WIDE2-1, checking all four address positions. -/
theorem c6_ui_hldc_placement_witness :
    (encodable ⟨[65, 80, 82, 83], 0, false, false⟩ ∧
     encodable ⟨[78, 48, 67, 65, 76, 76], 0, false, false⟩ ∧
     (∀ p ∈ [(⟨[87, 73, 68, 69, 49], 1, false, false⟩ : Address),
        ⟨[87, 73, 68, 69, 50], 1, false, false⟩], encodable p) ∧
     (⟨[65, 80, 82, 83], 0, false, false⟩ : Address).a7_hldc = false ∧
     (∀ p ∈ [(⟨[87, 73, 68, 69, 49], 1, false, false⟩ : Address),
          ⟨[87, 73, 68, 69, 50], 1, false, false⟩].dropLast,
        some p ≠ [(⟨[87, 73, 68, 69, 49], 1, false, false⟩ : Address),
          ⟨[87, 73, 68, 69, 50], 1, false, false⟩].getLast?)) ∧
    (Frame.to_bytes (Frame.ui_addrs ⟨[65, 80, 82, 83], 0, false, false⟩
        ⟨[78, 48, 67, 65, 76, 76], 0, false, false⟩
        [⟨[87, 73, 68, 69, 49], 1, false, false⟩,
         ⟨[87, 73, 68, 69, 50], 1, false, false⟩] [116]) =
      Except.ok (frameEnc (Frame.ui_addrs ⟨[65, 80, 82, 83], 0, false, false⟩
        ⟨[78, 48, 67, 65, 76, 76], 0, false, false⟩
        [⟨[87, 73, 68, 69, 49], 1, false, false⟩,
         ⟨[87, 73, 68, 69, 50], 1, false, false⟩] [116])) ∧
    ∀ k : Nat, k < 2 + 2 →
      ((frameEnc (Frame.ui_addrs ⟨[65, 80, 82, 83], 0, false, false⟩
        ⟨[78, 48, 67, 65, 76, 76], 0, false, false⟩
        [⟨[87, 73, 68, 69, 49], 1, false, false⟩,
         ⟨[87, 73, 68, 69, 50], 1, false, false⟩] [116])).get? (7 * k + 6)).map
          (fun v => v % 2) = some (if k = 2 + 1 then 1 else 0)) :=
  ⟨⟨by decide, by decide, by decide, by decide, by decide⟩,
    c6_ui_hldc_placement ⟨[65, 80, 82, 83], 0, false, false⟩
      ⟨[78, 48, 67, 65, 76, 76], 0, false, false⟩
      [⟨[87, 73, 68, 69, 49], 1, false, false⟩,
       ⟨[87, 73, 68, 69, 50], 1, false, false⟩] [116]
      (by decide) (by decide) (by decide) (by decide) (by decide)⟩
